import Mathlib

/-!
Verification of the intraday analysis engine (`src/lib/patternDetection.ts`).

The engine is a pure function from an ordered OHLCV sequence to an analysis
summary.  JavaScript numbers are modelled as exact rationals (`ℚ`); the
division-by-zero edge (a zero base close) is outside the claims considered
here, and `ℚ`'s `x / 0 = 0` convention stands in for the unguarded
non-finite propagation of the original.  Array indexing `points[i]` is
modelled with `List.getD` and a zero dummy point; every index the engine
dereferences is in range, so the dummy is never observed.
-/

/-- Confidence enumeration from `src/lib/types.ts` (`InsightConfidence`). -/
inductive InsightConfidence
  | high
  | medium
  | low
deriving DecidableEq, Repr

/-- Direction values `"bullish" | "bearish"` used by insights and markers. -/
inductive Direction
  | bullish
  | bearish
deriving DecidableEq, Repr

/-- One OHLCV sample (`IntradayPoint` in `src/lib/types.ts`).  The TS field
`open` is called `open_` because `open` is a Lean keyword. -/
structure IntradayPoint where
  timestamp : ℤ
  open_ : ℚ
  high : ℚ
  low : ℚ
  close : ℚ
  volume : ℚ
deriving DecidableEq, Repr

/-- A detected event (`PatternInsight` in `src/lib/types.ts`); the optional TS
fields are modelled with `Option`. -/
structure PatternInsight where
  id : String
  title : String
  description : String
  confidence : InsightConfidence
  startIndex : Option ℕ := none
  endIndex : Option ℕ := none
  changePct : Option ℚ := none
  direction : Option Direction := none
deriving DecidableEq, Repr

/-- A chart-anchorable event (`SignalMarker` in `src/lib/types.ts`). -/
structure SignalMarker where
  timestamp : ℤ
  price : ℚ
  label : String
  confidence : InsightConfidence
  direction : Direction
deriving DecidableEq, Repr

/-- The `stats` record of `AnalysisSummary`. -/
structure AnalysisStats where
  rangePct : ℚ
  avgVolume : ℚ
  sessionChangePct : ℚ
  sessionHigh : ℚ
  sessionLow : ℚ
deriving DecidableEq, Repr

/-- The engine's sole output (`AnalysisSummary` in `src/lib/types.ts`). -/
structure AnalysisSummary where
  narrative : String
  stats : AnalysisStats
  insights : List PatternInsight
  signals : List SignalMarker
  ema9 : List ℚ
  ema21 : List ℚ
deriving DecidableEq, Repr

/-- Dummy point backing `List.getD`; never observed on in-range indices. -/
def dummyPoint : IntradayPoint :=
  { timestamp := 0, open_ := 0, high := 0, low := 0, close := 0, volume := 0 }

/-- `points[i]` of the source, totalised with a dummy default. -/
def getPoint (points : List IntradayPoint) (i : ℕ) : IntradayPoint :=
  points.getD i dummyPoint

/-- Tail of the EMA recurrence: given the previous EMA value `prev`, produces
`ema[i] = close[i]*k + ema[i-1]*(1-k)` for the remaining closes. -/
def emaFrom (k : ℚ) (prev : ℚ) : List ℚ → List ℚ
  | [] => []
  | c :: cs =>
    let e := c * k + prev * (1 - k)
    e :: emaFrom k e cs

/-- `calculateEMA` from `patternDetection.ts`: empty input gives `[]`,
otherwise `k = 2/(length+1)`, `ema[0] = points[0].close`, and
`ema[i] = points[i].close*k + ema[i-1]*(1-k)` for `i ≥ 1`. -/
def calculateEMA (points : List IntradayPoint) (length : ℕ) : List ℚ :=
  match points with
  | [] => []
  | p :: ps =>
    let k : ℚ := 2 / ((length : ℚ) + 1)
    p.close :: emaFrom k p.close (ps.map (·.close))

theorem emaFrom_length (k prev : ℚ) (cs : List ℚ) :
    (emaFrom k prev cs).length = cs.length := by
  induction cs generalizing prev with
  | nil => rfl
  | cons c cs ih => simp [emaFrom, ih]

theorem calculateEMA_length (points : List IntradayPoint) (n : ℕ) :
    (calculateEMA points n).length = points.length := by
  cases points with
  | nil => rfl
  | cons p ps => simp [calculateEMA, emaFrom_length]

/-- The elementwise recurrence satisfied by `emaFrom`: entry `i` combines the
`i`-th close with the previous EMA value (`prev` when `i = 0`). -/
theorem emaFrom_getD (k prev : ℚ) (cs : List ℚ) (i : ℕ) (hi : i < cs.length) :
    (emaFrom k prev cs).getD i 0 =
      cs.getD i 0 * k + ((prev :: emaFrom k prev cs).getD i 0) * (1 - k) := by
  induction cs generalizing prev i with
  | nil => simp at hi
  | cons c cs ih =>
    cases i with
    | zero => simp [emaFrom]
    | succ j =>
      have hj : j < cs.length := by simpa using hi
      simpa [emaFrom] using ih (c * k + prev * (1 - k)) j hj

theorem calculateEMA_getD_zero (p : IntradayPoint) (ps : List IntradayPoint)
    (n : ℕ) : (calculateEMA (p :: ps) n).getD 0 0 = p.close := by
  simp [calculateEMA]

/-- The EMA recurrence at index `i ≥ 1`, phrased over `calculateEMA`. -/
theorem calculateEMA_getD_succ (points : List IntradayPoint) (n : ℕ) (i : ℕ)
    (h1 : 1 ≤ i) (h2 : i < points.length) :
    (calculateEMA points n).getD i 0 =
      (getPoint points i).close * (2 / ((n : ℚ) + 1)) +
        (calculateEMA points n).getD (i - 1) 0 * (1 - 2 / ((n : ℚ) + 1)) := by
  cases points with
  | nil => simp at h2
  | cons p ps =>
    obtain ⟨j, rfl⟩ : ∃ j, i = j + 1 := ⟨i - 1, by omega⟩
    have hj : j < (ps.map (·.close)).length := by
      simpa using Nat.lt_of_succ_lt_succ h2
    have hrec := emaFrom_getD (2 / ((n : ℚ) + 1)) p.close (ps.map (·.close)) j hj
    have hclose : (ps.map (·.close)).getD j 0 = (getPoint (p :: ps) (j + 1)).close := by
      have hj' : j < ps.length := by simpa using hj
      simp [getPoint, List.getD_eq_getElem?_getD, List.getElem?_map,
        List.getElem?_eq_getElem hj']
    have hhead : (calculateEMA (p :: ps) n).getD (j + 1) 0 =
        (emaFrom (2 / ((n : ℚ) + 1)) p.close (ps.map (·.close))).getD j 0 := by
      simp [calculateEMA]
    have htail : (calculateEMA (p :: ps) n).getD (j + 1 - 1) 0 =
        (p.close :: emaFrom (2 / ((n : ℚ) + 1)) p.close (ps.map (·.close))).getD j 0 := by
      simp [calculateEMA]
    rw [hhead, hrec, hclose, htail]

/-- C2: `calculateEMA` returns a same-length sequence, seeded with the first
close, satisfying `ema[i] = close[i]*k + ema[i-1]*(1-k)` with `k = 2/(n+1)`
for `i ≥ 1`; the empty input yields the empty output. -/
theorem calculateEMA_spec (points : List IntradayPoint) (n : ℕ) :
    (calculateEMA points n).length = points.length ∧
    calculateEMA ([] : List IntradayPoint) n = [] ∧
    (0 < points.length → (calculateEMA points n).getD 0 0 = (getPoint points 0).close) ∧
    (∀ i, 1 ≤ i → i < points.length →
      (calculateEMA points n).getD i 0 =
        (getPoint points i).close * (2 / ((n : ℚ) + 1)) +
          (calculateEMA points n).getD (i - 1) 0 * (1 - 2 / ((n : ℚ) + 1))) := by
  refine ⟨calculateEMA_length points n, rfl, ?_, fun i h1 h2 => calculateEMA_getD_succ points n i h1 h2⟩
  intro hpos
  cases points with
  | nil => simp at hpos
  | cons p ps => simp [calculateEMA, getPoint]

/-- Two-sample sequence used to witness the EMA recurrence concretely. -/
def emaWitnessPoints : List IntradayPoint :=
  [{ timestamp := 0, open_ := 100, high := 100, low := 100, close := 100, volume := 1 },
   { timestamp := 60, open_ := 102, high := 102, low := 102, close := 102, volume := 1 }]

theorem calculateEMA_spec_witness :
    (calculateEMA emaWitnessPoints 9).length = 2 ∧
    (calculateEMA emaWitnessPoints 9).getD 0 0 = 100 ∧
    (calculateEMA emaWitnessPoints 9).getD 1 0 =
      102 * (2 / ((9 : ℚ) + 1)) +
        (calculateEMA emaWitnessPoints 9).getD 0 0 * (1 - 2 / ((9 : ℚ) + 1)) := by
  obtain ⟨hlen, -, hseed, hrec⟩ := calculateEMA_spec emaWitnessPoints 9
  have hlen2 : emaWitnessPoints.length = 2 := by simp [emaWitnessPoints]
  refine ⟨by rw [hlen, hlen2], ?_, ?_⟩
  · rw [hseed (by rw [hlen2]; norm_num)]
    simp [emaWitnessPoints, getPoint]
  · have := hrec 1 (by norm_num) (by rw [hlen2]; norm_num)
    rw [this]
    simp [emaWitnessPoints, getPoint]

/-- Minimum of the closes `close[0..i]` (clamped to the available prefix);
only consulted for `i < points.length`. -/
def prefixMinClose : List IntradayPoint → ℕ → ℚ
  | [], _ => 0
  | p :: _, 0 => p.close
  | p :: ps, i + 1 => min p.close (prefixMinClose ps i)

/-- Maximum of the closes `close[0..i]` (clamped to the available prefix). -/
def prefixMaxClose : List IntradayPoint → ℕ → ℚ
  | [], _ => 0
  | p :: _, 0 => p.close
  | p :: ps, i + 1 => max p.close (prefixMaxClose ps i)

theorem prefixMinClose_succ (points : List IntradayPoint) (i : ℕ)
    (h : i + 1 < points.length) :
    prefixMinClose points (i + 1) =
      min (prefixMinClose points i) (getPoint points (i + 1)).close := by
  induction points generalizing i with
  | nil => simp at h
  | cons p ps ih =>
    cases i with
    | zero =>
      cases ps with
      | nil => simp at h
      | cons q qs => simp [prefixMinClose, getPoint]
    | succ j =>
      have hj : j + 1 < ps.length := by simpa using h
      have := ih j hj
      simp only [prefixMinClose, this, getPoint, List.getD_cons_succ]
      rw [min_assoc]

theorem prefixMaxClose_succ (points : List IntradayPoint) (i : ℕ)
    (h : i + 1 < points.length) :
    prefixMaxClose points (i + 1) =
      max (prefixMaxClose points i) (getPoint points (i + 1)).close := by
  induction points generalizing i with
  | nil => simp at h
  | cons p ps ih =>
    cases i with
    | zero =>
      cases ps with
      | nil => simp at h
      | cons q qs => simp [prefixMaxClose, getPoint]
    | succ j =>
      have hj : j + 1 < ps.length := by simpa using h
      have := ih j hj
      simp only [prefixMaxClose, this, getPoint, List.getD_cons_succ]
      rw [max_assoc]

theorem prefixMinClose_zero (p : IntradayPoint) (ps : List IntradayPoint) :
    prefixMinClose (p :: ps) 0 = p.close := rfl

theorem prefixMaxClose_zero (p : IntradayPoint) (ps : List IntradayPoint) :
    prefixMaxClose (p :: ps) 0 = p.close := rfl

theorem emaSmoothingFactor_bounds (n : ℕ) (hn : 1 ≤ n) :
    0 ≤ 2 / ((n : ℚ) + 1) ∧ 2 / ((n : ℚ) + 1) ≤ 1 := by
  have h2 : (2 : ℚ) ≤ (n : ℚ) + 1 := by
    have : (1 : ℚ) ≤ (n : ℚ) := by exact_mod_cast hn
    linarith
  constructor
  · positivity
  · rw [div_le_one (by linarith)]
    linarith

/-- C10: every EMA entry lies between the minimum and the maximum of the
closes seen so far, for any span `n ≥ 1`. -/
theorem calculateEMA_bounded (points : List IntradayPoint) (n : ℕ)
    (hn : 1 ≤ n) (i : ℕ) (hi : i < points.length) :
    prefixMinClose points i ≤ (calculateEMA points n).getD i 0 ∧
      (calculateEMA points n).getD i 0 ≤ prefixMaxClose points i := by
  obtain ⟨hk0, hk1⟩ := emaSmoothingFactor_bounds n hn
  induction i with
  | zero =>
    cases points with
    | nil => simp at hi
    | cons p ps =>
      constructor
      · rw [prefixMinClose_zero, calculateEMA_getD_zero]
      · rw [prefixMaxClose_zero, calculateEMA_getD_zero]
  | succ j ih =>
    have hj : j < points.length := Nat.lt_of_succ_lt hi
    obtain ⟨ihmin, ihmax⟩ := ih hj
    have hrec := calculateEMA_getD_succ points n (j + 1) (by omega) hi
    simp only [Nat.add_sub_cancel] at hrec
    rw [hrec, prefixMinClose_succ points j hi, prefixMaxClose_succ points j hi]
    set k : ℚ := 2 / ((n : ℚ) + 1) with hk
    set c : ℚ := (getPoint points (j + 1)).close with hc
    set e : ℚ := (calculateEMA points n).getD j 0 with he
    constructor
    · have h1 : min (prefixMinClose points j) c ≤ c := min_le_right _ _
      have h2 : min (prefixMinClose points j) c ≤ e :=
        le_trans (min_le_left _ _) ihmin
      have : min (prefixMinClose points j) c =
          min (prefixMinClose points j) c * k +
            min (prefixMinClose points j) c * (1 - k) := by ring
      rw [this]
      exact add_le_add (mul_le_mul_of_nonneg_right h1 hk0)
        (mul_le_mul_of_nonneg_right h2 (by linarith))
    · have h1 : c ≤ max (prefixMaxClose points j) c := le_max_right _ _
      have h2 : e ≤ max (prefixMaxClose points j) c :=
        le_trans ihmax (le_max_left _ _)
      have : max (prefixMaxClose points j) c =
          max (prefixMaxClose points j) c * k +
            max (prefixMaxClose points j) c * (1 - k) := by ring
      rw [this]
      exact add_le_add (mul_le_mul_of_nonneg_right h1 hk0)
        (mul_le_mul_of_nonneg_right h2 (by linarith))

theorem calculateEMA_bounded_witness :
    prefixMinClose emaWitnessPoints 1 ≤ (calculateEMA emaWitnessPoints 9).getD 1 0 ∧
      (calculateEMA emaWitnessPoints 9).getD 1 0 ≤ prefixMaxClose emaWitnessPoints 1 :=
  calculateEMA_bounded emaWitnessPoints 9 (by norm_num) 1 (by simp [emaWitnessPoints])

/-- `BIG_MOVE_LOOKBACK` from `patternDetection.ts`. -/
def BIG_MOVE_LOOKBACK : ℕ := 3

/-- `BIG_MOVE_THRESHOLD` from `patternDetection.ts` (0.6%). -/
def BIG_MOVE_THRESHOLD : ℚ := 0.6

/-- Candidate move recorded by the big-move scan (the anonymous record pushed
onto `moves` in `detectBigMoves`). -/
structure BigMove where
  index : ℕ
  changePct : ℚ
  direction : Direction
  spanStart : ℕ
deriving DecidableEq, Repr

/-- `changePct` of the big-move scan at end index `i`:
`(close[i] - close[i-3]) / close[i-3] * 100`. -/
def bigMovePct (points : List IntradayPoint) (i : ℕ) : ℚ :=
  let baseClose := (getPoint points (i - BIG_MOVE_LOOKBACK)).close
  let latestClose := (getPoint points i).close
  (latestClose - baseClose) / baseClose * 100

/-- Body of the scan loop of `detectBigMoves` at index `i`: a candidate is
recorded when `i` is at least the lookback and `|changePct| ≥ threshold`. -/
def bigMoveAt (points : List IntradayPoint) (i : ℕ) : Option BigMove :=
  if BIG_MOVE_LOOKBACK ≤ i then
    let changePct := bigMovePct points i
    if |changePct| ≥ BIG_MOVE_THRESHOLD then
      some { index := i, changePct := changePct,
             direction := if 0 ≤ changePct then .bullish else .bearish,
             spanStart := i - BIG_MOVE_LOOKBACK }
    else none
  else none

/-- The scan loop of `detectBigMoves`: for `i` from `BIG_MOVE_LOOKBACK` to
`n-1`, record a candidate when `|changePct| ≥ BIG_MOVE_THRESHOLD`. -/
def bigMoveCandidates (points : List IntradayPoint) : List BigMove :=
  (List.range points.length).filterMap (bigMoveAt points)

/-- One step of a stable insertion sort, descending by `|changePct|`: the new
element `m` (earlier in scan order) is placed before any element of equal
magnitude. -/
def insertByAbsDesc (m : BigMove) : List BigMove → List BigMove
  | [] => [m]
  | x :: xs =>
    if |m.changePct| < |x.changePct| then x :: insertByAbsDesc m xs
    else m :: x :: xs

/-- Models `moves.sort((a, b) => Math.abs(b.changePct) - Math.abs(a.changePct))`.
JavaScript `Array.prototype.sort` is stable and this comparator induces a
total preorder on the key `|changePct|`, so its output coincides with any
stable sort by that key; it is modelled as a stable insertion sort. -/
def sortByAbsDesc : List BigMove → List BigMove
  | [] => []
  | m :: ms => insertByAbsDesc m (sortByAbsDesc ms)

/-- JavaScript `toFixed(2)` on an exact rational: two decimals, rounding
half away from zero (the effect of `toFixed` on the magnitudes used here). -/
def formatFixed2 (q : ℚ) : String :=
  let sign := if q < 0 then "-" else ""
  let scaled : ℕ := (|q| * 100 + 1 / 2).floor.toNat
  let ip := scaled / 100
  let fp := scaled % 100
  sign ++ toString ip ++ "." ++ (if fp < 10 then "0" ++ toString fp else toString fp)

/-- `format(timestamp * 1000, "HH:mm")` of date-fns, with the ambient zone
modelled as UTC (timestamps are seconds since epoch). -/
def formatHHMM (ts : ℤ) : String :=
  let t := ts.toNat
  let hours := t / 3600 % 24
  let minutes := t / 60 % 60
  (if hours < 10 then "0" ++ toString hours else toString hours) ++ ":" ++
    (if minutes < 10 then "0" ++ toString minutes else toString minutes)

/-- `toConfidence` from `patternDetection.ts`: `|change| ≥ 1.5 → high`,
`|change| ≥ 1.0 → medium`, otherwise `low`. -/
def toConfidence (change : ℚ) : InsightConfidence :=
  if |change| ≥ 1.5 then .high
  else if |change| ≥ 1.0 then .medium
  else .low

/-- The `PatternInsight` built for the ranked big move at rank `idx`. -/
def mkBigMoveInsight (points : List IntradayPoint) (idx : ℕ) (move : BigMove) :
    PatternInsight :=
  let point := getPoint points move.index
  let startPoint := getPoint points move.spanStart
  let directionLabel := if move.direction = .bullish then "Bullish" else "Bearish"
  { id := "big-move-" ++ toString move.index
    title := directionLabel ++ " impulse #" ++ toString (idx + 1)
    description := directionLabel ++ " burst of " ++ formatFixed2 move.changePct ++
      "% between " ++ formatHHMM startPoint.timestamp ++ " and " ++
      formatHHMM point.timestamp ++ " indicates aggressive " ++
      (if move.direction = .bullish then "buying" else "selling") ++ " pressure."
    confidence := toConfidence move.changePct
    startIndex := some move.spanStart
    endIndex := some move.index
    changePct := some move.changePct
    direction := some move.direction }

/-- The `SignalMarker` built for a selected big move. -/
def mkBigMoveSignal (points : List IntradayPoint) (move : BigMove) : SignalMarker :=
  { timestamp := (getPoint points move.index).timestamp
    price := (getPoint points move.index).close
    label := if move.direction = .bullish then "Momentum Upswing" else "Momentum Flush"
    confidence := toConfidence move.changePct
    direction := move.direction }

/-- `topMoves.map((move, idx) => ...)`: maps with the rank index threaded
through, starting at `start`. -/
def numberedInsights (points : List IntradayPoint) (start : ℕ) :
    List BigMove → List PatternInsight
  | [] => []
  | m :: ms => mkBigMoveInsight points start m :: numberedInsights points (start + 1) ms

/-- Result record of `detectBigMoves`. -/
structure BigMoveResult where
  insights : List PatternInsight
  signals : List SignalMarker
deriving DecidableEq, Repr

/-- `detectBigMoves` from `patternDetection.ts`: scan, stable-sort by
descending `|changePct|`, keep the top 4, and emit one insight and one
marker per selected move. -/
def detectBigMoves (points : List IntradayPoint) : BigMoveResult :=
  let topMoves := (sortByAbsDesc (bigMoveCandidates points)).take 4
  { insights := numberedInsights points 0 topMoves
    signals := topMoves.map (mkBigMoveSignal points) }

theorem bigMoveAt_eq_some {points : List IntradayPoint} {i : ℕ} {m : BigMove} :
    bigMoveAt points i = some m ↔
      BIG_MOVE_LOOKBACK ≤ i ∧ |bigMovePct points i| ≥ BIG_MOVE_THRESHOLD ∧
        m = { index := i, changePct := bigMovePct points i,
              direction := if 0 ≤ bigMovePct points i then .bullish else .bearish,
              spanStart := i - BIG_MOVE_LOOKBACK } := by
  unfold bigMoveAt
  by_cases h3 : BIG_MOVE_LOOKBACK ≤ i
  · by_cases hth : |bigMovePct points i| ≥ BIG_MOVE_THRESHOLD
    · simp [h3, hth, eq_comm]
    · simp [h3, hth]
  · simp [h3]

theorem mem_bigMoveCandidates {points : List IntradayPoint} {m : BigMove} :
    m ∈ bigMoveCandidates points ↔
      ∃ i, BIG_MOVE_LOOKBACK ≤ i ∧ i < points.length ∧
        |bigMovePct points i| ≥ BIG_MOVE_THRESHOLD ∧
        m = { index := i, changePct := bigMovePct points i,
              direction := if 0 ≤ bigMovePct points i then .bullish else .bearish,
              spanStart := i - BIG_MOVE_LOOKBACK } := by
  simp only [bigMoveCandidates, List.mem_filterMap, List.mem_range, bigMoveAt_eq_some]
  constructor
  · rintro ⟨i, hi, h3, hth, rfl⟩
    exact ⟨i, h3, hi, hth, rfl⟩
  · rintro ⟨i, h3, hi, hth, rfl⟩
    exact ⟨i, hi, h3, hth, rfl⟩

theorem bigMoveCandidates_pairwise_index (points : List IntradayPoint) :
    (bigMoveCandidates points).Pairwise fun a b => a.index < b.index := by
  refine List.Pairwise.filterMap (bigMoveAt points) ?_ (List.pairwise_lt_range _)
  intro a a' hlt b hb b' hb'
  have hb1 := bigMoveAt_eq_some.1 hb
  have hb2 := bigMoveAt_eq_some.1 hb'
  rw [hb1.2.2, hb2.2.2]
  exact hlt

/-- The key-descending-with-stable-ties order: either strictly larger
magnitude first or, on equal magnitudes, the smaller scan index first. -/
def BigMoveRank (a b : BigMove) : Prop :=
  |b.changePct| < |a.changePct| ∨ (|b.changePct| = |a.changePct| ∧ a.index < b.index)

theorem mem_insertByAbsDesc {m y : BigMove} {xs : List BigMove} :
    y ∈ insertByAbsDesc m xs ↔ y = m ∨ y ∈ xs := by
  induction xs with
  | nil => simp [insertByAbsDesc]
  | cons x xs ih =>
    unfold insertByAbsDesc
    split
    · simp only [List.mem_cons, ih]
      tauto
    · simp only [List.mem_cons]

theorem insertByAbsDesc_perm (m : BigMove) (xs : List BigMove) :
    List.Perm (insertByAbsDesc m xs) (m :: xs) := by
  induction xs with
  | nil => simp [insertByAbsDesc]
  | cons x xs ih =>
    unfold insertByAbsDesc
    split
    · exact ((ih.cons x).trans (List.Perm.swap m x xs))
    · exact List.Perm.refl _

theorem sortByAbsDesc_perm (l : List BigMove) : List.Perm (sortByAbsDesc l) l := by
  induction l with
  | nil => exact List.Perm.refl _
  | cons m ms ih =>
    exact (insertByAbsDesc_perm m (sortByAbsDesc ms)).trans (ih.cons m)

theorem pairwise_rank_insertByAbsDesc {m : BigMove} {xs : List BigMove}
    (hidx : ∀ y ∈ xs, m.index < y.index) (h : xs.Pairwise BigMoveRank) :
    (insertByAbsDesc m xs).Pairwise BigMoveRank := by
  induction xs with
  | nil => simp [insertByAbsDesc]
  | cons x xs ih =>
    obtain ⟨hxall, hxs⟩ := List.pairwise_cons.1 h
    have hmx : m.index < x.index := hidx x (List.mem_cons_self x xs)
    unfold insertByAbsDesc
    split
    · rename_i hlt
      refine List.pairwise_cons.2 ⟨?_, ih (fun y hy => hidx y (List.mem_cons_of_mem x hy)) hxs⟩
      intro y hy
      rcases mem_insertByAbsDesc.1 hy with rfl | hy'
      · exact Or.inl hlt
      · exact hxall y hy'
    · rename_i hge
      have hxm : |x.changePct| ≤ |m.changePct| := not_lt.1 hge
      refine List.pairwise_cons.2 ⟨?_, h⟩
      intro y hy
      rcases List.mem_cons.1 hy with rfl | hy'
      · rcases lt_or_eq_of_le hxm with hlt | heq
        · exact Or.inl hlt
        · exact Or.inr ⟨heq, hmx⟩
      · rcases hxall y hy' with hlt | ⟨heq, _⟩
        · exact Or.inl (lt_of_lt_of_le hlt hxm)
        · rcases lt_or_eq_of_le hxm with hlt2 | heq2
          · exact Or.inl (heq ▸ hlt2)
          · exact Or.inr ⟨heq.trans heq2, hidx y (List.mem_cons_of_mem x hy')⟩

theorem pairwise_rank_sortByAbsDesc {l : List BigMove}
    (h : l.Pairwise fun a b => a.index < b.index) :
    (sortByAbsDesc l).Pairwise BigMoveRank := by
  induction l with
  | nil => simp [sortByAbsDesc]
  | cons m ms ih =>
    obtain ⟨hmall, hms⟩ := List.pairwise_cons.1 h
    refine pairwise_rank_insertByAbsDesc ?_ (ih hms)
    intro y hy
    exact hmall y ((sortByAbsDesc_perm ms).mem_iff.1 hy)

theorem numberedInsights_length (points : List IntradayPoint) (s : ℕ)
    (l : List BigMove) : (numberedInsights points s l).length = l.length := by
  induction l generalizing s with
  | nil => rfl
  | cons m ms ih => simp [numberedInsights, ih]

theorem mem_numberedInsights {points : List IntradayPoint} {s : ℕ}
    {l : List BigMove} {ins : PatternInsight} (h : ins ∈ numberedInsights points s l) :
    ∃ idx m, m ∈ l ∧ ins = mkBigMoveInsight points idx m := by
  induction l generalizing s with
  | nil => simp [numberedInsights] at h
  | cons m ms ih =>
    rcases List.mem_cons.1 h with rfl | h'
    · exact ⟨s, m, List.mem_cons_self m ms, rfl⟩
    · obtain ⟨idx, m', hm', rfl⟩ := ih h'
      exact ⟨idx, m', List.mem_cons_of_mem m hm', rfl⟩

theorem numberedInsights_pairwise {points : List IntradayPoint}
    {S : BigMove → BigMove → Prop} {R : PatternInsight → PatternInsight → Prop}
    (H : ∀ i j a b, S a b → R (mkBigMoveInsight points i a) (mkBigMoveInsight points j b))
    {s : ℕ} {l : List BigMove} (h : l.Pairwise S) :
    (numberedInsights points s l).Pairwise R := by
  induction l generalizing s with
  | nil => simp [numberedInsights]
  | cons m ms ih =>
    obtain ⟨hmall, hms⟩ := List.pairwise_cons.1 h
    refine List.pairwise_cons.2 ⟨?_, ih hms⟩
    intro y hy
    obtain ⟨idx, m', hm', rfl⟩ := mem_numberedInsights hy
    exact H s idx m m' (hmall m' hm')

/-- C3: `detectBigMoves` returns at most 4 insights and 4 markers; every
insight records the lookback change percentage of its end index, at or above
the threshold; insights are ordered by descending `|changePct|`, equal
magnitudes keeping scan order (strictly increasing end index). -/
theorem detectBigMoves_spec (points : List IntradayPoint) :
    (detectBigMoves points).insights.length ≤ 4 ∧
    (detectBigMoves points).signals.length ≤ 4 ∧
    (∀ ins ∈ (detectBigMoves points).insights,
      ∃ i, BIG_MOVE_LOOKBACK ≤ i ∧ i < points.length ∧
        ins.endIndex = some i ∧ ins.startIndex = some (i - BIG_MOVE_LOOKBACK) ∧
        ins.changePct = some (bigMovePct points i) ∧
        |bigMovePct points i| ≥ BIG_MOVE_THRESHOLD) ∧
    (detectBigMoves points).insights.Pairwise
      (fun a b => ∀ x ∈ a.changePct, ∀ y ∈ b.changePct, |y| ≤ |x|) ∧
    (detectBigMoves points).insights.Pairwise
      (fun a b => ∀ x ∈ a.changePct, ∀ y ∈ b.changePct, |x| = |y| →
        ∀ ia ∈ a.endIndex, ∀ ib ∈ b.endIndex, ia < ib) := by
  have hpair : ((sortByAbsDesc (bigMoveCandidates points)).take 4).Pairwise BigMoveRank :=
    (pairwise_rank_sortByAbsDesc (bigMoveCandidates_pairwise_index points)).sublist
      (List.take_sublist 4 _)
  refine ⟨?_, ?_, ?_, ?_, ?_⟩
  · simp only [detectBigMoves, numberedInsights_length, List.length_take]
    omega
  · simp only [detectBigMoves, List.length_map, List.length_take]
    omega
  · intro ins hins
    simp only [detectBigMoves] at hins
    obtain ⟨idx, m, hm, rfl⟩ := mem_numberedInsights hins
    have hm' : m ∈ bigMoveCandidates points :=
      (sortByAbsDesc_perm _).mem_iff.1 ((List.take_sublist 4 _).subset hm)
    obtain ⟨i, h3, hi, hth, rfl⟩ := mem_bigMoveCandidates.1 hm'
    exact ⟨i, h3, hi, rfl, rfl, rfl, hth⟩
  · simp only [detectBigMoves]
    refine numberedInsights_pairwise ?_ hpair
    intro i j a b hab
    simp only [mkBigMoveInsight, Option.mem_def, Option.some.injEq]
    rintro x rfl y rfl
    rcases hab with hlt | ⟨heq, _⟩
    · exact le_of_lt hlt
    · exact le_of_eq heq
  · simp only [detectBigMoves]
    refine numberedInsights_pairwise ?_ hpair
    intro i j a b hab
    simp only [mkBigMoveInsight, Option.mem_def, Option.some.injEq]
    rintro x rfl y rfl hxy ia rfl ib rfl
    rcases hab with hlt | ⟨-, hidx⟩
    · exact absurd (hxy ▸ hlt) (lt_irrefl _)
    · exact hidx

/-- The concrete six-point scenario from the spec: closes
`[100, 100.2, 100.4, 100.7, 100.5, 101.9]` at consecutive minute timestamps
(flat OHLC bars, constant volume). -/
def scenarioPoints : List IntradayPoint :=
  [{ timestamp := 0, open_ := 100, high := 100, low := 100, close := 100, volume := 1000 },
   { timestamp := 60, open_ := 100.2, high := 100.2, low := 100.2, close := 100.2, volume := 1000 },
   { timestamp := 120, open_ := 100.4, high := 100.4, low := 100.4, close := 100.4, volume := 1000 },
   { timestamp := 180, open_ := 100.7, high := 100.7, low := 100.7, close := 100.7, volume := 1000 },
   { timestamp := 240, open_ := 100.5, high := 100.5, low := 100.5, close := 100.5, volume := 1000 },
   { timestamp := 300, open_ := 101.9, high := 101.9, low := 101.9, close := 101.9, volume := 1000 }]

/-- The scenario's scan finds two candidates: `+0.70%` ending at index 3 and
`+1.4940…%` (`375/251`) ending at index 5. -/
theorem scenario_candidates :
    bigMoveCandidates scenarioPoints =
      [{ index := 3, changePct := 7/10, direction := .bullish, spanStart := 0 },
       { index := 5, changePct := 375/251, direction := .bullish, spanStart := 2 }] := by
  norm_num [bigMoveCandidates, scenarioPoints, List.range_succ, List.filterMap_append,
    List.filterMap_cons, bigMoveAt, bigMovePct, getPoint, BIG_MOVE_LOOKBACK,
    BIG_MOVE_THRESHOLD, abs_of_nonneg]

theorem scenario_sorted :
    sortByAbsDesc (bigMoveCandidates scenarioPoints) =
      [{ index := 5, changePct := 375/251, direction := .bullish, spanStart := 2 },
       { index := 3, changePct := 7/10, direction := .bullish, spanStart := 0 }] := by
  rw [scenario_candidates]
  norm_num [sortByAbsDesc, insertByAbsDesc, abs_of_nonneg]

theorem scenario_top_insight :
    mkBigMoveInsight scenarioPoints 0
        { index := 5, changePct := 375/251, direction := .bullish, spanStart := 2 } ∈
      (detectBigMoves scenarioPoints).insights := by
  simp [detectBigMoves, scenario_sorted, numberedInsights]

theorem detectBigMoves_spec_witness :
    ∃ i, BIG_MOVE_LOOKBACK ≤ i ∧ i < scenarioPoints.length ∧
      (mkBigMoveInsight scenarioPoints 0
          { index := 5, changePct := 375/251, direction := .bullish, spanStart := 2 }).endIndex = some i ∧
      (mkBigMoveInsight scenarioPoints 0
          { index := 5, changePct := 375/251, direction := .bullish, spanStart := 2 }).startIndex =
        some (i - BIG_MOVE_LOOKBACK) ∧
      (mkBigMoveInsight scenarioPoints 0
          { index := 5, changePct := 375/251, direction := .bullish, spanStart := 2 }).changePct =
        some (bigMovePct scenarioPoints i) ∧
      |bigMovePct scenarioPoints i| ≥ BIG_MOVE_THRESHOLD :=
  (detectBigMoves_spec scenarioPoints).2.2.1 _ scenario_top_insight

/-- The insight emitted for a bullish EMA cross at index `i`. -/
def mkBullishCross (points : List IntradayPoint) (i : ℕ) : PatternInsight :=
  { id := "bullish-cross-" ++ toString i
    title := "Short-term bullish transition"
    description := "Fast EMA crossed above the intermediate trend near " ++
      formatHHMM (getPoint points i).timestamp ++ ", suggesting renewed upside momentum."
    confidence := .medium
    startIndex := some (i - 1)
    endIndex := some i
    direction := some .bullish }

/-- The insight emitted for a bearish EMA cross at index `i`. -/
def mkBearishCross (points : List IntradayPoint) (i : ℕ) : PatternInsight :=
  { id := "bearish-cross-" ++ toString i
    title := "Short-term bearish transition"
    description := "Fast EMA slipped beneath the intermediate trend near " ++
      formatHHMM (getPoint points i).timestamp ++ ", flagging a potential fade."
    confidence := .medium
    startIndex := some (i - 1)
    endIndex := some i
    direction := some .bearish }

/-- Loop body of `detectTrendShifts` at index `i` (the loop starts at 1). -/
def trendShiftAt (points : List IntradayPoint) (ema9 ema21 : List ℚ) (i : ℕ) :
    Option PatternInsight :=
  if 1 ≤ i then
    let prevDiff := ema9.getD (i - 1) 0 - ema21.getD (i - 1) 0
    let currDiff := ema9.getD i 0 - ema21.getD i 0
    if prevDiff ≤ 0 ∧ 0 < currDiff then some (mkBullishCross points i)
    else if 0 ≤ prevDiff ∧ currDiff < 0 then some (mkBearishCross points i)
    else none
  else none

/-- The `insights` array of `detectTrendShifts` before the final `slice(-3)`:
all transitions in scan order. -/
def trendShiftsAll (points : List IntradayPoint) (ema9 ema21 : List ℚ) :
    List PatternInsight :=
  (List.range points.length).filterMap (trendShiftAt points ema9 ema21)

/-- `detectTrendShifts` from `patternDetection.ts`; `insights.slice(-3)` is
`drop (length - 3)` (truncated subtraction clamps shorter lists, as slice
does). -/
def detectTrendShifts (points : List IntradayPoint) (ema9 ema21 : List ℚ) :
    List PatternInsight :=
  let insights := trendShiftsAll points ema9 ema21
  insights.drop (insights.length - 3)

/-- The trailing 10-sample relative range at index `i`:
`(max(high in points.slice(i-10, i)) - min(low in same)) / close[i]`. -/
def rangeAt (points : List IntradayPoint) (i : ℕ) : ℚ :=
  let windowPoints := (points.drop (i - 10)).take 10
  let highs := windowPoints.map (·.high)
  let lows := windowPoints.map (·.low)
  (highs.max?.getD 0 - lows.min?.getD 0) / (getPoint points i).close

/-- One iteration of the compression scan.  The source seeds
`minRange = Infinity`; `none` models the untouched seed, which any rational
range (all ranges are finite here) immediately replaces. -/
def compressionStep (points : List IntradayPoint) (st : Option ℚ × ℕ) (i : ℕ) :
    Option ℚ × ℕ :=
  let range := rangeAt points i
  match st with
  | (none, _) => (some range, i)
  | (some minRange, minIndex) =>
    if range < minRange then (some range, i) else (some minRange, minIndex)

/-- The scan loop of `detectCompressionBreakout`: `i` from 10 to `n-1`,
tracking the minimal range and its first index. -/
def compressionScan (points : List IntradayPoint) : Option ℚ × ℕ :=
  (List.range' 10 (points.length - 10)).foldl (compressionStep points) (none, 0)

/-- `minIndex` after the compression scan. -/
def compressionMinIndex (points : List IntradayPoint) : ℕ :=
  (compressionScan points).2

/-- `breakoutIndex = Math.min(points.length - 1, minIndex + 3)`. -/
def compressionBreakoutIndex (points : List IntradayPoint) : ℕ :=
  min (points.length - 1) (compressionMinIndex points + 3)

/-- The breakout change percentage evaluated by `detectCompressionBreakout`. -/
def compressionChangePct (points : List IntradayPoint) : ℚ :=
  ((getPoint points (compressionBreakoutIndex points)).close -
      (getPoint points (compressionMinIndex points)).close) /
    (getPoint points (compressionMinIndex points)).close * 100

/-- `detectCompressionBreakout` from `patternDetection.ts`. -/
def detectCompressionBreakout (points : List IntradayPoint) : List PatternInsight :=
  if points.length < 20 then []
  else
    let minRange := (compressionScan points).1.getD 0
    let minIndex := compressionMinIndex points
    let breakoutIndex := compressionBreakoutIndex points
    let changePct := compressionChangePct points
    if |changePct| < 0.8 then []
    else
      [{ id := "compression-" ++ toString breakoutIndex
         title := "Tight-range expansion"
         description := "Price coiled within a tight " ++ formatFixed2 (minRange * 100) ++
           "% band before releasing " ++ formatFixed2 changePct ++
           "%, often a precursor to sustained follow-through."
         confidence := toConfidence changePct
         startIndex := some minIndex
         endIndex := some breakoutIndex
         changePct := some changePct
         direction := some (if 0 ≤ changePct then .bullish else .bearish) }]

/-- The three-way bias classification used by `buildNarrative`. -/
inductive Bias
  | bullish
  | bearish
  | balanced
deriving DecidableEq, Repr

/-- Session change used by `buildNarrative` (and the stats):
`(close[n-1] - close[0]) / close[0] * 100`. -/
def narrativeChangePct (points : List IntradayPoint) : ℚ :=
  let first := (getPoint points 0).close
  let last := (getPoint points (points.length - 1)).close
  (last - first) / first * 100

/-- The bias: bullish above `+0.6`, bearish below `-0.6`, else balanced. -/
def sessionBias (changePct : ℚ) : Bias :=
  if 0.6 < changePct then .bullish
  else if changePct < -0.6 then .bearish
  else .balanced

/-- `Math.max(...points.map(p => p.high))`; callers only use it on non-empty
input, so the default is never observed. -/
def sessionHighOf (points : List IntradayPoint) : ℚ :=
  (points.map (·.high)).max?.getD 0

/-- `Math.min(...points.map(p => p.low))`. -/
def sessionLowOf (points : List IntradayPoint) : ℚ :=
  (points.map (·.low)).min?.getD 0

/-- `buildNarrative` from `patternDetection.ts`. -/
def buildNarrative (points : List IntradayPoint) : String :=
  if points.length < 2 then "Insufficient data to build a narrative."
  else
    let changePct := narrativeChangePct points
    let sessionHigh := sessionHighOf points
    let sessionLow := sessionLowOf points
    let rangePct := (sessionHigh - sessionLow) / sessionLow * 100
    let biasText :=
      match sessionBias changePct with
      | .bullish => "Flow shows a constructive bias with buyers pressing the tape."
      | .bearish => "Supply dominated the session with persistent offer absorption."
      | .balanced => "Auction remained rotational with neither side in clear control."
    biasText ++ " Spot rallied " ++ formatFixed2 changePct ++
      "% across the session while rotating through a " ++ formatFixed2 rangePct ++
      "% range. Monitor how price behaves near " ++ formatFixed2 sessionHigh ++
      " (swing high) and " ++ formatFixed2 sessionLow ++
      " (swing low) for confirmation of continuation or rejection."

/-- The fixed all-empty summary returned for an empty input sequence. -/
def emptySummary : AnalysisSummary :=
  { narrative := "No intraday prints were returned from the data source."
    stats := { rangePct := 0, avgVolume := 0, sessionChangePct := 0,
               sessionHigh := 0, sessionLow := 0 }
    insights := []
    signals := []
    ema9 := []
    ema21 := [] }

/-- The non-empty branch of `analyzeIntradayData`. -/
def mainAnalysis (points : List IntradayPoint) : AnalysisSummary :=
  let ema9 := calculateEMA points 9
  let ema21 := calculateEMA points 21
  let bigMoves := detectBigMoves points
  let trendInsights := detectTrendShifts points ema9 ema21
  let compressionInsights := detectCompressionBreakout points
  let volumeSum := points.foldl (fun sum point => sum + point.volume) 0
  let sessionHigh := sessionHighOf points
  let sessionLow := sessionLowOf points
  let avgVolume := volumeSum / (points.length : ℚ)
  let sessionChangePct :=
    ((getPoint points (points.length - 1)).close - (getPoint points 0).close) /
      (getPoint points 0).close * 100
  let rangePct := (sessionHigh - sessionLow) / sessionLow * 100
  { narrative := buildNarrative points
    stats := { rangePct := rangePct, avgVolume := avgVolume,
               sessionChangePct := sessionChangePct,
               sessionHigh := sessionHigh, sessionLow := sessionLow }
    insights := (bigMoves.insights ++ trendInsights ++ compressionInsights).take 6
    signals := bigMoves.signals
    ema9 := ema9
    ema21 := ema21 }

/-- `analyzeIntradayData` from `patternDetection.ts`: the empty input is the
sole short-circuit; otherwise the full pipeline runs. -/
def analyzeIntradayData (points : List IntradayPoint) : AnalysisSummary :=
  if points.length = 0 then emptySummary else mainAnalysis points

/-- The final insights list always equals the capped concatenation
[big moves, trend shifts, compression] (also on the empty input, where every
component is empty). -/
theorem analyze_insights_eq (points : List IntradayPoint) :
    (analyzeIntradayData points).insights =
      ((detectBigMoves points).insights ++
        detectTrendShifts points (calculateEMA points 9) (calculateEMA points 21) ++
        detectCompressionBreakout points).take 6 := by
  unfold analyzeIntradayData
  split
  · rename_i h
    have hnil : points = [] := List.length_eq_zero.1 h
    subst hnil
    rfl
  · rfl

/-- C6: the orchestrator's insights are the first 6 entries of the fixed-order
concatenation [big-move, trend-shift, compression], hence never more than 6,
with later categories dropped first. -/
theorem analyze_insights_spec (points : List IntradayPoint) :
    (analyzeIntradayData points).insights =
      ((detectBigMoves points).insights ++
        detectTrendShifts points (calculateEMA points 9) (calculateEMA points 21) ++
        detectCompressionBreakout points).take 6 ∧
    (analyzeIntradayData points).insights.length ≤ 6 := by
  refine ⟨analyze_insights_eq points, ?_⟩
  rw [analyze_insights_eq points, List.length_take]
  omega

/-- C7: the empty input produces exactly the fixed "no data" summary, and any
non-empty input runs the full pipeline (EMAs, detectors, narrative) instead
of short-circuiting. -/
theorem analyze_empty_spec :
    ((analyzeIntradayData []).narrative =
        "No intraday prints were returned from the data source." ∧
      (analyzeIntradayData []).stats.rangePct = 0 ∧
      (analyzeIntradayData []).stats.avgVolume = 0 ∧
      (analyzeIntradayData []).stats.sessionChangePct = 0 ∧
      (analyzeIntradayData []).stats.sessionHigh = 0 ∧
      (analyzeIntradayData []).stats.sessionLow = 0 ∧
      (analyzeIntradayData []).insights = [] ∧
      (analyzeIntradayData []).signals = [] ∧
      (analyzeIntradayData []).ema9 = [] ∧
      (analyzeIntradayData []).ema21 = []) ∧
    (∀ points : List IntradayPoint, points ≠ [] →
      (analyzeIntradayData points).ema9 = calculateEMA points 9 ∧
      (analyzeIntradayData points).ema21 = calculateEMA points 21 ∧
      (analyzeIntradayData points).signals = (detectBigMoves points).signals ∧
      (analyzeIntradayData points).narrative = buildNarrative points) := by
  constructor
  · exact ⟨rfl, rfl, rfl, rfl, rfl, rfl, rfl, rfl, rfl, rfl⟩
  · intro points hne
    have hlen : ¬points.length = 0 := fun h => hne (List.length_eq_zero.1 h)
    unfold analyzeIntradayData
    rw [if_neg hlen]
    exact ⟨rfl, rfl, rfl, rfl⟩

theorem analyze_empty_spec_witness :
    (analyzeIntradayData scenarioPoints).ema9 = calculateEMA scenarioPoints 9 ∧
    (analyzeIntradayData scenarioPoints).ema21 = calculateEMA scenarioPoints 21 ∧
    (analyzeIntradayData scenarioPoints).signals = (detectBigMoves scenarioPoints).signals ∧
    (analyzeIntradayData scenarioPoints).narrative = buildNarrative scenarioPoints :=
  analyze_empty_spec.2 scenarioPoints (by simp [scenarioPoints])

/-- C9: every signal marker of the engine output is anchored to an input
point: its timestamp and price are those of the end index of its move. -/
theorem signals_anchored (points : List IntradayPoint) :
    ∀ m ∈ (analyzeIntradayData points).signals,
      ∃ i, i < points.length ∧ m.timestamp = (getPoint points i).timestamp ∧
        m.price = (getPoint points i).close := by
  intro m hm
  unfold analyzeIntradayData at hm
  split at hm
  · simp [emptySummary] at hm
  · have hm' : m ∈ (detectBigMoves points).signals := hm
    simp only [detectBigMoves, List.mem_map] at hm'
    obtain ⟨mv, hmv, rfl⟩ := hm'
    have hmem : mv ∈ bigMoveCandidates points :=
      (sortByAbsDesc_perm _).mem_iff.1 ((List.take_sublist 4 _).subset hmv)
    obtain ⟨i, h3, hi, hth, rfl⟩ := mem_bigMoveCandidates.1 hmem
    exact ⟨i, hi, rfl, rfl⟩

theorem scenario_signal_mem :
    mkBigMoveSignal scenarioPoints
        { index := 5, changePct := 375/251, direction := .bullish, spanStart := 2 } ∈
      (analyzeIntradayData scenarioPoints).signals := by
  unfold analyzeIntradayData
  rw [if_neg (by simp [scenarioPoints])]
  show _ ∈ (detectBigMoves scenarioPoints).signals
  simp [detectBigMoves, scenario_sorted]

theorem signals_anchored_witness :
    ∃ i, i < scenarioPoints.length ∧
      (mkBigMoveSignal scenarioPoints
          { index := 5, changePct := 375/251, direction := .bullish, spanStart := 2 }).timestamp =
        (getPoint scenarioPoints i).timestamp ∧
      (mkBigMoveSignal scenarioPoints
          { index := 5, changePct := 375/251, direction := .bullish, spanStart := 2 }).price =
        (getPoint scenarioPoints i).close :=
  signals_anchored scenarioPoints _ scenario_signal_mem

theorem trendShiftAt_eq_some {points : List IntradayPoint} {ema9 ema21 : List ℚ}
    {i : ℕ} {ins : PatternInsight} :
    trendShiftAt points ema9 ema21 i = some ins ↔
      1 ≤ i ∧
        ((ema9.getD (i - 1) 0 - ema21.getD (i - 1) 0 ≤ 0 ∧
            0 < ema9.getD i 0 - ema21.getD i 0 ∧ ins = mkBullishCross points i) ∨
          (0 ≤ ema9.getD (i - 1) 0 - ema21.getD (i - 1) 0 ∧
            ema9.getD i 0 - ema21.getD i 0 < 0 ∧ ins = mkBearishCross points i)) := by
  simp only [trendShiftAt]
  by_cases h1 : 1 ≤ i
  · by_cases hbull : ema9.getD (i - 1) 0 - ema21.getD (i - 1) 0 ≤ 0 ∧
        0 < ema9.getD i 0 - ema21.getD i 0
    · rw [if_pos h1, if_pos hbull]
      constructor
      · intro h
        obtain rfl := Option.some.inj h
        exact ⟨h1, Or.inl ⟨hbull.1, hbull.2, rfl⟩⟩
      · rintro ⟨-, ⟨-, -, rfl⟩ | ⟨-, hneg, -⟩⟩
        · rfl
        · exact absurd hbull.2 (not_lt.2 hneg.le)
    · by_cases hbear : 0 ≤ ema9.getD (i - 1) 0 - ema21.getD (i - 1) 0 ∧
          ema9.getD i 0 - ema21.getD i 0 < 0
      · rw [if_pos h1, if_neg hbull, if_pos hbear]
        constructor
        · intro h
          obtain rfl := Option.some.inj h
          exact ⟨h1, Or.inr ⟨hbear.1, hbear.2, rfl⟩⟩
        · rintro ⟨-, ⟨-, hpos, -⟩ | ⟨-, -, rfl⟩⟩
          · exact absurd hpos (not_lt.2 hbear.2.le)
          · rfl
      · rw [if_pos h1, if_neg hbull, if_neg hbear]
        constructor
        · intro h
          cases h
        · rintro ⟨-, ⟨ha, hb, -⟩ | ⟨ha, hb, -⟩⟩
          · exact absurd ⟨ha, hb⟩ hbull
          · exact absurd ⟨ha, hb⟩ hbear
  · rw [if_neg h1]
    constructor
    · intro h
      cases h
    · rintro ⟨hc, -⟩
      exact absurd hc h1

/-- C4: `detectTrendShifts` emits a bullish insight at `i` exactly when
`prevDiff ≤ 0 < currDiff` and a bearish one exactly when
`currDiff < 0 ≤ prevDiff` (a zero diff participates in both boundary
checks); every insight has confidence medium and span `[i-1, i]`; only the
last 3 transitions survive, in increasing-index scan order. -/
theorem detectTrendShifts_spec (points : List IntradayPoint) (ema9 ema21 : List ℚ) :
    (∀ ins, ins ∈ trendShiftsAll points ema9 ema21 ↔
      ∃ i, 1 ≤ i ∧ i < points.length ∧
        ((ema9.getD (i - 1) 0 - ema21.getD (i - 1) 0 ≤ 0 ∧
            0 < ema9.getD i 0 - ema21.getD i 0 ∧ ins = mkBullishCross points i) ∨
          (0 ≤ ema9.getD (i - 1) 0 - ema21.getD (i - 1) 0 ∧
            ema9.getD i 0 - ema21.getD i 0 < 0 ∧ ins = mkBearishCross points i))) ∧
    (∀ ins ∈ trendShiftsAll points ema9 ema21,
      ins.confidence = .medium ∧
        ∃ i, 1 ≤ i ∧ ins.startIndex = some (i - 1) ∧ ins.endIndex = some i) ∧
    detectTrendShifts points ema9 ema21 =
      (trendShiftsAll points ema9 ema21).drop
        ((trendShiftsAll points ema9 ema21).length - 3) ∧
    (detectTrendShifts points ema9 ema21).length ≤ 3 ∧
    (detectTrendShifts points ema9 ema21).Pairwise
      (fun a b => ∀ ia ∈ a.endIndex, ∀ ib ∈ b.endIndex, ia < ib) := by
  have hmem : ∀ ins, ins ∈ trendShiftsAll points ema9 ema21 ↔
      ∃ i, 1 ≤ i ∧ i < points.length ∧
        ((ema9.getD (i - 1) 0 - ema21.getD (i - 1) 0 ≤ 0 ∧
            0 < ema9.getD i 0 - ema21.getD i 0 ∧ ins = mkBullishCross points i) ∨
          (0 ≤ ema9.getD (i - 1) 0 - ema21.getD (i - 1) 0 ∧
            ema9.getD i 0 - ema21.getD i 0 < 0 ∧ ins = mkBearishCross points i)) := by
    intro ins
    simp only [trendShiftsAll, List.mem_filterMap, List.mem_range, trendShiftAt_eq_some]
    constructor
    · rintro ⟨i, hi, h1, hrest⟩
      exact ⟨i, h1, hi, hrest⟩
    · rintro ⟨i, h1, hi, hrest⟩
      exact ⟨i, hi, h1, hrest⟩
  refine ⟨hmem, ?_, rfl, ?_, ?_⟩
  · intro ins hins
    obtain ⟨i, h1, -, hcase⟩ := (hmem ins).1 hins
    rcases hcase with ⟨-, -, rfl⟩ | ⟨-, -, rfl⟩
    · exact ⟨rfl, ⟨i, h1, rfl, rfl⟩⟩
    · exact ⟨rfl, ⟨i, h1, rfl, rfl⟩⟩
  · show ((trendShiftsAll points ema9 ema21).drop _).length ≤ 3
    rw [List.length_drop]
    omega
  · have hall : (trendShiftsAll points ema9 ema21).Pairwise
        (fun a b => ∀ ia ∈ a.endIndex, ∀ ib ∈ b.endIndex, ia < ib) := by
      refine List.Pairwise.filterMap (trendShiftAt points ema9 ema21) ?_
        (List.pairwise_lt_range _)
      intro a a' hlt b hb b' hb'
      obtain ⟨-, hcase⟩ := trendShiftAt_eq_some.1 hb
      obtain ⟨-, hcase'⟩ := trendShiftAt_eq_some.1 hb'
      have hend : b.endIndex = some a := by
        rcases hcase with ⟨-, -, rfl⟩ | ⟨-, -, rfl⟩ <;> rfl
      have hend' : b'.endIndex = some a' := by
        rcases hcase' with ⟨-, -, rfl⟩ | ⟨-, -, rfl⟩ <;> rfl
      rw [hend, hend']
      simpa using hlt
    exact hall.sublist (List.drop_sublist _ _)

theorem detectTrendShifts_spec_witness :
    mkBullishCross scenarioPoints 1 ∈
      trendShiftsAll scenarioPoints (calculateEMA scenarioPoints 9)
        (calculateEMA scenarioPoints 21) :=
  ((detectTrendShifts_spec scenarioPoints (calculateEMA scenarioPoints 9)
      (calculateEMA scenarioPoints 21)).1 (mkBullishCross scenarioPoints 1)).2
    ⟨1, le_refl 1, by simp [scenarioPoints], Or.inl ⟨by
      norm_num [calculateEMA, emaFrom, scenarioPoints], by
      norm_num [calculateEMA, emaFrom, scenarioPoints], rfl⟩⟩

theorem getPoint_mem {points : List IntradayPoint} {i : ℕ} (h : i < points.length) :
    getPoint points i ∈ points := by
  rw [getPoint, List.getD_eq_getElem?_getD, List.getElem?_eq_getElem h]
  exact List.getElem_mem h

theorem emaFrom_const (k c : ℚ) (m : ℕ) :
    emaFrom k c (List.replicate m c) = List.replicate m c := by
  induction m with
  | zero => rfl
  | succ j ih =>
    have hc : c * k + c * (1 - k) = c := by ring
    simp only [List.replicate, emaFrom, hc, ih]

theorem calculateEMA_const (points : List IntradayPoint) (c : ℚ) (n : ℕ)
    (hc : ∀ p ∈ points, p.close = c) :
    calculateEMA points n = List.replicate points.length c := by
  cases points with
  | nil => rfl
  | cons p ps =>
    have hp : p.close = c := hc p (List.mem_cons_self p ps)
    have hmap : ps.map (·.close) = List.replicate ps.length c := by
      rw [List.eq_replicate_iff]
      refine ⟨by simp, ?_⟩
      intro b hb
      obtain ⟨q, hq, rfl⟩ := List.mem_map.1 hb
      exact hc q (List.mem_cons_of_mem p hq)
    simp only [calculateEMA, hmap, hp, emaFrom_const]
    rfl

theorem bigMoveCandidates_const (points : List IntradayPoint) (c : ℚ)
    (hc : ∀ p ∈ points, p.close = c) : bigMoveCandidates points = [] := by
  rw [List.eq_nil_iff_forall_not_mem]
  intro m hm
  obtain ⟨i, h3, hi, hth, -⟩ := mem_bigMoveCandidates.1 hm
  have hbase : (getPoint points (i - BIG_MOVE_LOOKBACK)).close = c :=
    hc _ (getPoint_mem (by omega))
  have hlatest : (getPoint points i).close = c := hc _ (getPoint_mem hi)
  rw [bigMovePct] at hth
  simp only [hbase, hlatest, sub_self, zero_div, zero_mul, abs_zero] at hth
  rw [BIG_MOVE_THRESHOLD] at hth
  norm_num at hth

theorem trendShiftsAll_self (points : List IntradayPoint) (e : List ℚ) :
    trendShiftsAll points e e = [] := by
  rw [trendShiftsAll, List.filterMap_eq_nil_iff]
  intro i hi
  simp [trendShiftAt, sub_self, lt_irrefl]

/-- C8: on a constant-price series both EMA series are constant at that
price, the big-move and trend-shift detectors are silent, and the narrative
bias is balanced. -/
theorem constant_series_spec (points : List IntradayPoint) (c : ℚ)
    (hne : points ≠ []) (hc : ∀ p ∈ points, p.close = c) :
    calculateEMA points 9 = List.replicate points.length c ∧
    calculateEMA points 21 = List.replicate points.length c ∧
    (detectBigMoves points).insights = [] ∧
    (detectBigMoves points).signals = [] ∧
    detectTrendShifts points (calculateEMA points 9) (calculateEMA points 21) = [] ∧
    sessionBias (narrativeChangePct points) = .balanced := by
  have hcand := bigMoveCandidates_const points c hc
  have hlen : 0 < points.length := List.length_pos.2 hne
  refine ⟨calculateEMA_const points c 9 hc, calculateEMA_const points c 21 hc, ?_, ?_, ?_, ?_⟩
  · simp [detectBigMoves, hcand, sortByAbsDesc, numberedInsights]
  · simp [detectBigMoves, hcand, sortByAbsDesc]
  · rw [calculateEMA_const points c 9 hc, calculateEMA_const points c 21 hc]
    simp [detectTrendShifts, trendShiftsAll_self]
  · have h0 : (getPoint points 0).close = c := hc _ (getPoint_mem hlen)
    have hlast : (getPoint points (points.length - 1)).close = c :=
      hc _ (getPoint_mem (by omega))
    rw [narrativeChangePct]
    simp only [h0, hlast, sub_self, zero_div, zero_mul]
    rw [sessionBias]
    norm_num

/-- Four identical samples, closing at 50. -/
def constPoints : List IntradayPoint :=
  List.replicate 4
    { timestamp := 0, open_ := 50, high := 50, low := 50, close := 50, volume := 10 }

theorem constant_series_spec_witness :
    calculateEMA constPoints 9 = List.replicate constPoints.length 50 ∧
    calculateEMA constPoints 21 = List.replicate constPoints.length 50 ∧
    (detectBigMoves constPoints).insights = [] ∧
    (detectBigMoves constPoints).signals = [] ∧
    detectTrendShifts constPoints (calculateEMA constPoints 9)
      (calculateEMA constPoints 21) = [] ∧
    sessionBias (narrativeChangePct constPoints) = .balanced :=
  constant_series_spec constPoints 50 (by simp [constPoints])
    (fun p hp => by rw [List.eq_of_mem_replicate hp])

/-- Invariant of the compression scan once the seed has been replaced: the
running minimum only decreases, it is attained at its recorded index, and any
scanned index with the same range lies at or after the recorded one (strict
`<` keeps first occurrences on ties). -/
theorem compressionFold_spec (points : List IntradayPoint) (L : List ℕ)
    (mr : ℚ) (mi : ℕ) (hgt : ∀ j ∈ L, mi < j) (hsort : L.Pairwise (· < ·)) :
    ∃ mr' mi',
      L.foldl (compressionStep points) (some mr, mi) = (some mr', mi') ∧
      mr' ≤ mr ∧
      ((mr' = mr ∧ mi' = mi) ∨
        (mi' ∈ L ∧ mr' = rangeAt points mi' ∧ mr' < mr)) ∧
      ∀ j ∈ L, mr' ≤ rangeAt points j ∧ (rangeAt points j = mr' → mi' ≤ j) := by
  induction L generalizing mr mi with
  | nil => exact ⟨mr, mi, rfl, le_refl _, Or.inl ⟨rfl, rfl⟩, by simp⟩
  | cons i L ih =>
    obtain ⟨hil, hL⟩ := List.pairwise_cons.1 hsort
    have hmi_i : mi < i := hgt i (List.mem_cons_self i L)
    by_cases hlt : rangeAt points i < mr
    · have hstep : compressionStep points (some mr, mi) i = (some (rangeAt points i), i) := by
        simp [compressionStep, hlt]
      obtain ⟨mr', mi', heq, hle, hcase, hall⟩ := ih (rangeAt points i) i hil hL
      refine ⟨mr', mi', ?_, le_trans hle hlt.le, ?_, ?_⟩
      · rw [List.foldl_cons, hstep]
        exact heq
      · rcases hcase with ⟨h1, h2⟩ | ⟨h1, h2, h3⟩
        · subst h2
          exact Or.inr ⟨List.mem_cons_self mi' L, h1, h1 ▸ hlt⟩
        · exact Or.inr ⟨List.mem_cons_of_mem i h1, h2, lt_trans h3 hlt⟩
      · intro j hj
        rcases List.mem_cons.1 hj with rfl | hj'
        · refine ⟨hle, fun hje => ?_⟩
          rcases hcase with ⟨h1, h2⟩ | ⟨h1, h2, h3⟩
          · exact h2 ▸ le_refl j
          · exact absurd (hje ▸ h3) (lt_irrefl _)
        · exact hall j hj'
    · have hstep : compressionStep points (some mr, mi) i = (some mr, mi) := by
        simp [compressionStep, hlt]
      have hgt' : ∀ j ∈ L, mi < j := fun j hj => lt_trans hmi_i (hil j hj)
      obtain ⟨mr', mi', heq, hle, hcase, hall⟩ := ih mr mi hgt' hL
      have hri : mr ≤ rangeAt points i := not_lt.1 hlt
      refine ⟨mr', mi', ?_, hle, ?_, ?_⟩
      · rw [List.foldl_cons, hstep]
        exact heq
      · rcases hcase with ⟨h1, h2⟩ | ⟨h1, h2, h3⟩
        · exact Or.inl ⟨h1, h2⟩
        · exact Or.inr ⟨List.mem_cons_of_mem i h1, h2, h3⟩
      · intro j hj
        rcases List.mem_cons.1 hj with rfl | hj'
        · refine ⟨le_trans hle hri, fun hje => ?_⟩
          rcases hcase with ⟨h1, h2⟩ | ⟨h1, h2, h3⟩
          · exact h2 ▸ le_of_lt hmi_i
          · exact absurd (hje ▸ lt_of_lt_of_le h3 hri) (lt_irrefl _)
        · exact hall j hj'

/-- For at least 20 points the compression scan lands on an in-range index
which attains the minimal trailing range, first occurrence on ties. -/
theorem compressionScan_spec (points : List IntradayPoint)
    (h20 : 20 ≤ points.length) :
    10 ≤ compressionMinIndex points ∧
    compressionMinIndex points < points.length ∧
    (compressionScan points).1 = some (rangeAt points (compressionMinIndex points)) ∧
    ∀ j, 10 ≤ j → j < points.length →
      rangeAt points (compressionMinIndex points) ≤ rangeAt points j ∧
      (rangeAt points j = rangeAt points (compressionMinIndex points) →
        compressionMinIndex points ≤ j) := by
  obtain ⟨m, hm⟩ : ∃ m, points.length - 10 = m + 1 := ⟨points.length - 11, by omega⟩
  have hm' : points.length = m + 11 := by omega
  have hcons : List.range' 10 (points.length - 10) = 10 :: List.range' 11 m := by
    rw [hm, List.range'_succ]
  have hstep0 : compressionStep points ((none : Option ℚ), 0) 10 =
      (some (rangeAt points 10), 10) := rfl
  have hgt : ∀ j ∈ List.range' 11 m, 10 < j := by
    intro j hj
    have := List.mem_range'_1.1 hj
    omega
  obtain ⟨mr', mi', heq, hle, hcase, hall⟩ :=
    compressionFold_spec points (List.range' 11 m) (rangeAt points 10) 10 hgt
      (List.pairwise_lt_range' 11 m)
  have hscan : compressionScan points = (some mr', mi') := by
    rw [compressionScan, hcons, List.foldl_cons, hstep0, heq]
  have hmi : compressionMinIndex points = mi' := by
    rw [compressionMinIndex, hscan]
  have hrange : mr' = rangeAt points mi' := by
    rcases hcase with ⟨h1, h2⟩ | ⟨-, h2, -⟩
    · rw [h1, h2]
    · exact h2
  have hbounds : 10 ≤ mi' ∧ mi' < points.length := by
    rcases hcase with ⟨-, h2⟩ | ⟨h1, -, -⟩
    · omega
    · have := List.mem_range'_1.1 h1
      omega
  refine ⟨hmi ▸ hbounds.1, hmi ▸ hbounds.2, ?_, ?_⟩
  · rw [hscan, hmi, ← hrange]
  · intro j h10 hjn
    rw [hmi, ← hrange]
    rcases Nat.eq_or_lt_of_le h10 with rfl | h11
    · refine ⟨hle, fun hje => ?_⟩
      rcases hcase with ⟨-, h2⟩ | ⟨-, -, h3⟩
      · omega
      · exact absurd (hje ▸ h3) (lt_irrefl _)
    · have hjmem : j ∈ List.range' 11 m := List.mem_range'_1.2 ⟨h11, by omega⟩
      exact hall j hjmem

/-- C5: the compression detector yields at most one insight; it yields none
for fewer than 20 points and none when the breakout magnitude is below 0.8%,
where the breakout is measured from the first-occurrence minimal-range index
to `min(n-1, minIndex+3)`. -/
theorem detectCompressionBreakout_spec (points : List IntradayPoint) :
    (detectCompressionBreakout points).length ≤ 1 ∧
    (points.length < 20 → detectCompressionBreakout points = []) ∧
    (20 ≤ points.length → |compressionChangePct points| < 0.8 →
      detectCompressionBreakout points = []) ∧
    (20 ≤ points.length →
      10 ≤ compressionMinIndex points ∧
      compressionMinIndex points < points.length ∧
      compressionBreakoutIndex points =
        min (points.length - 1) (compressionMinIndex points + 3) ∧
      ∀ j, 10 ≤ j → j < points.length →
        rangeAt points (compressionMinIndex points) ≤ rangeAt points j ∧
        (rangeAt points j = rangeAt points (compressionMinIndex points) →
          compressionMinIndex points ≤ j)) := by
  refine ⟨?_, ?_, ?_, ?_⟩
  · simp only [detectCompressionBreakout]
    split
    · simp
    · split
      · simp
      · simp
  · intro h
    simp only [detectCompressionBreakout]
    rw [if_pos h]
  · intro h20 hsmall
    simp only [detectCompressionBreakout]
    rw [if_neg (not_lt.2 h20), if_pos hsmall]
  · intro h20
    obtain ⟨h1, h2, -, h4⟩ := compressionScan_spec points h20
    exact ⟨h1, h2, rfl, h4⟩

/-- Twenty-one identical samples, used to witness the sub-threshold branch. -/
def constPoints21 : List IntradayPoint :=
  List.replicate 21
    { timestamp := 0, open_ := 50, high := 50, low := 50, close := 50, volume := 10 }

theorem compressionChangePct_constPoints21 : compressionChangePct constPoints21 = 0 := by
  have h20 : 20 ≤ constPoints21.length := by simp [constPoints21]
  obtain ⟨h10, hlt, -, -⟩ := compressionScan_spec constPoints21 h20
  have hclose : ∀ i, i < constPoints21.length → (getPoint constPoints21 i).close = 50 := by
    intro i hi
    have := getPoint_mem hi
    rw [List.eq_of_mem_replicate this]
  have hb : compressionBreakoutIndex constPoints21 < constPoints21.length := by
    rw [compressionBreakoutIndex]
    have : 0 < constPoints21.length := by omega
    omega
  rw [compressionChangePct, hclose _ hb, hclose _ hlt]
  norm_num

theorem detectCompressionBreakout_spec_witness :
    detectCompressionBreakout scenarioPoints = [] ∧
    detectCompressionBreakout constPoints21 = [] :=
  ⟨(detectCompressionBreakout_spec scenarioPoints).2.1 (by simp [scenarioPoints]),
   (detectCompressionBreakout_spec constPoints21).2.2.1 (by simp [constPoints21])
     (by rw [compressionChangePct_constPoints21]; norm_num)⟩

theorem scenario_big_insights :
    (detectBigMoves scenarioPoints).insights =
      [mkBigMoveInsight scenarioPoints 0
         { index := 5, changePct := 375/251, direction := .bullish, spanStart := 2 },
       mkBigMoveInsight scenarioPoints 1
         { index := 3, changePct := 7/10, direction := .bullish, spanStart := 0 }] := by
  simp [detectBigMoves, scenario_sorted, numberedInsights]

theorem scenario_trend_insights :
    detectTrendShifts scenarioPoints (calculateEMA scenarioPoints 9)
        (calculateEMA scenarioPoints 21) = [mkBullishCross scenarioPoints 1] := by
  have hall : trendShiftsAll scenarioPoints (calculateEMA scenarioPoints 9)
      (calculateEMA scenarioPoints 21) = [mkBullishCross scenarioPoints 1] := by
    norm_num [trendShiftsAll, List.range_succ, List.filterMap_append, List.filterMap_cons,
      trendShiftAt, calculateEMA, emaFrom, scenarioPoints]
  rw [detectTrendShifts, hall]
  rfl

theorem scenario_compression : detectCompressionBreakout scenarioPoints = [] := rfl

/-- C1 counterexample: on the spec's six-point scenario the analysis output
contains TWO big-move insights (`big-move-5` and `big-move-3`), not exactly
one: the scan also fires at index 3 (+0.70% over closes 100 → 100.7). -/
theorem big_move_scenario_counterexample :
    ((analyzeIntradayData scenarioPoints).insights.map fun ins => ins.id) =
      ["big-move-5", "big-move-3", "bullish-cross-1"] ∧
    (detectBigMoves scenarioPoints).insights.length = 2 := by
  constructor
  · rw [analyze_insights_eq, scenario_big_insights, scenario_trend_insights,
      scenario_compression]
    simp only [List.append_nil, List.take, List.map, mkBigMoveInsight, mkBullishCross]
    decide
  · rw [scenario_big_insights]
    rfl

/-- C1 amended: the scenario yields exactly two big-move insights; ranked
first is the +1.49% move (bullish, medium confidence, span 2..5), ranked
second the +0.70% move (bullish, low confidence, span 0..3). -/
theorem big_move_scenario_amended :
    ((detectBigMoves scenarioPoints).insights.map fun ins =>
        (ins.id, ins.direction, ins.confidence, ins.startIndex, ins.endIndex,
          ins.changePct)) =
      [("big-move-5", some Direction.bullish, InsightConfidence.medium,
         some 2, some 5, some ((375 : ℚ)/251)),
       ("big-move-3", some Direction.bullish, InsightConfidence.low,
         some 0, some 3, some ((7 : ℚ)/10))] := by
  rw [scenario_big_insights]
  simp only [List.map, mkBigMoveInsight]
  norm_num [toConfidence, abs_of_nonneg]
  constructor
  · decide
  · decide
